import Mathlib

/-!
Verification of the Mentat repository's section-merge engine
(`setup/utils/claude_config.py`), username validation
(`setup/utils/mentat_config.py`) and SSH credential flow
(`setup/utils/ssh_auth.py`).

Documents are modelled as `List Char`; Python string offsets are character
offsets, matching list indices.  Python's `str.find(pat, pos)` is modelled by
`pyFind`, `pat in s` by `hasSub`, and the two regular-expression rewrites of
`_clean_duplicate_sections` by explicit character scanners whose matching
behaviour is derived from the patterns (both reduce to literal runs because
the whitespace classes cannot overlap the `#` that begins each divider).
-/

set_option maxRecDepth 20000

abbrev Text := List Char

/-- Index of the first occurrence of pattern `p` in `s` (Python `s.find(p)`,
with `none` for `-1`). -/
def strFind (p : Text) : Text → Option Nat
  | [] => if p.isPrefixOf ([] : Text) then some 0 else none
  | c :: t => if p.isPrefixOf (c :: t) then some 0 else (strFind p t).map (· + 1)

/-- Python `s.find(p, pos)`. -/
def pyFind (s p : Text) (pos : Nat) : Option Nat :=
  (strFind p (s.drop pos)).map (· + pos)

/-- Python substring test `p in s`. -/
def hasSub (s p : Text) : Bool :=
  (strFind p s).isSome

/-- Offsets of all occurrences of `p` in `s`, scanning like the source's
`while True: idx = content.find(pattern, search_pos); ...; search_pos = idx + 1`
loop.  `fuel` bounds the iteration count; the call sites pass `s.length + 1`,
which exceeds the number of occurrences of any nonempty pattern. -/
def findAllFrom (s p : Text) : Nat → Nat → List Nat
  | _, 0 => []
  | pos, fuel + 1 =>
    match pyFind s p pos with
    | none => []
    | some i => i :: findAllFrom s p (i + 1) fuel

def findAll (s p : Text) : List Nat :=
  findAllFrom s p 0 (s.length + 1)

-- Fixed marker literals of `ClaudeConfigManager`.  `MENTAT_SECTION_START` and
-- `MENTAT_SECTION_END` are the same literal: `"# "` followed by 51 `═` glyphs.
def sectionStart : Text := "# ".toList ++ List.replicate 51 '═'

def sectionHeader : Text := "# Mentat Framework Components".toList

/-- Short divider prefix used in the end-of-section marker literals:
`"# "` followed by 7 `═` glyphs. -/
def divider7 : Text := "# ".toList ++ List.replicate 7 '═'

/-- Pattern `MENTAT_SECTION_START + "\n" + MENTAT_SECTION_HEADER` used to
locate proper sections. -/
def properPat : Text := sectionStart ++ '\n' :: sectionHeader

def ccPat : Text := "# Component Count:".toList

def orphanMentatEq : Text := "# Mentat = Personal Claude Code customization framework".toList

def orphanCmdDotfiles : Text := "# Mentat Commands (Dotfiles".toList

def orphanCmdExt : Text := "# Mentat Commands (Extensible)".toList

/-- The three orphan patterns of `_clean_duplicate_sections`, each with its
leading newline as in the source. -/
def orphanPats : List Text :=
  ['\n' :: orphanMentatEq, '\n' :: orphanCmdDotfiles, '\n' :: orphanCmdExt]

/-- Python `any(start <= idx <= start + 500 for start, type in ... if type == "proper")`. -/
def withinProperWindow (propers : List Nat) (idx : Nat) : Bool :=
  propers.any (fun s => s ≤ idx && idx ≤ s + 500)

/-- Offsets of orphan fragments: every occurrence of each orphan pattern that
is not within 500 characters after a proper-section offset.  The source scans
the three patterns in order, appending hits of each in ascending order. -/
def orphanHits (content : Text) (propers : List Nat) : List Nat :=
  (orphanPats.map
    (fun pat => (findAll content pat).filter
      (fun i => !(withinProperWindow propers i)))).flatten

def insertAsc (x : Nat) : List Nat → List Nat
  | [] => [x]
  | y :: ys => if x ≤ y then x :: y :: ys else y :: insertAsc x ys

/-- Ascending sort of recorded offsets.  The source sorts `(offset, kind)`
tuples, but a proper offset (starting `#`) can never equal an orphan offset
(starting `\n`), so sorting the bare offsets is equivalent; the kind tag is
not consulted again after the window check. -/
def sortAsc (l : List Nat) : List Nat := l.foldr insertAsc []

/-- End markers used by the cleanup pass when no `# Component Count:` line is
found after a fragment. -/
def cleanupEndMarkers : List Text :=
  [ '\n' :: '\n' :: divider7,
    "\n\n# SuperClaude".toList,
    "\n\n# Core".toList,
    "\n# Mentat = Personal".toList,
    "\n# Mentat Commands".toList ]

/-- Smallest offset (at or after `searchStart`) of any marker, defaulting to
the document length: models the `for marker in ...: idx = find(marker,
search_start); if idx != -1 and idx < end_idx: end_idx = idx` loops. -/
def scanEnd (content : Text) (searchStart : Nat) (markers : List Text) : Nat :=
  markers.foldl
    (fun e m =>
      match pyFind content m searchStart with
      | none => e
      | some i => if i < e then i else e)
    content.length

/-- Deletion of one recorded section/fragment starting at `startIdx`, exactly
as in the cleanup loop: extent ends after the `# Component Count:` line when
one is found (the source computes `find("\n", cc) + 1`, which is `0` when the
`-1` sentinel comes back), else at the nearest end marker after
`startIdx + 50`, else at end of document. -/
def removeOne (cleaned : Text) (startIdx : Nat) : Text :=
  let endIdx :=
    match pyFind cleaned ccPat startIdx with
    | some cci =>
      match pyFind cleaned ['\n'] cci with
      | some j => j + 1
      | none => 0
    | none => scanEnd cleaned (startIdx + 50) cleanupEndMarkers
  cleaned.take startIdx ++ cleaned.drop endIdx

/-- One pass of Python `s.replace("\n\n\n\n", "\n\n\n")`: leftmost
non-overlapping occurrences, scanning resumes after each replacement. -/
def replaceRun4 : Text → Text
  | '\n' :: '\n' :: '\n' :: '\n' :: t => '\n' :: '\n' :: '\n' :: replaceRun4 t
  | c :: t => c :: replaceRun4 t
  | [] => []

def nl3 : Text := ['\n', '\n', '\n']

def nl4 : Text := ['\n', '\n', '\n', '\n']

/-- Python `while "\n\n\n\n" in cleaned: cleaned = cleaned.replace(...)`.
Each iteration with a match strictly shortens the text, so `fuel = length`
always suffices to reach the loop's exit condition. -/
def collapse4 : Nat → Text → Text
  | 0, s => s
  | fuel + 1, s => if hasSub s nl4 then collapse4 fuel (replaceRun4 s) else s

/-- One pass of Python `s.replace("\n\n\n", "\n\n")` (remove path). -/
def replaceRun3 : Text → Text
  | '\n' :: '\n' :: '\n' :: t => '\n' :: '\n' :: replaceRun3 t
  | c :: t => c :: replaceRun3 t
  | [] => []

def collapse3 : Nat → Text → Text
  | 0, s => s
  | fuel + 1, s => if hasSub s nl3 then collapse3 fuel (replaceRun3 s) else s

/-- Python regex class `\s` restricted to the characters that can occur here
(the module operates on text; ASCII whitespace is what the documents use). -/
def isPySpace (c : Char) : Bool :=
  c = ' ' || c = '\t' || c = '\n' || c = '\r' || c = '\x0b' || c = '\x0c'

def wsRunLen : Text → Nat
  | [] => 0
  | c :: t => if isPySpace c then wsRunLen t + 1 else 0

/-- Match of the divider-pair regex
`# ═(×51)\n\s*\n*# ═(×51)` at the head of `s`: the greedy `\s*\n*` must
consume the entire whitespace run (a shorter match leaves a whitespace
character where the second divider's `#` is required), so the regex matches
iff the run is followed by the second divider.  Returns the text after the
match. -/
def divMatchAt (s : Text) : Option Text :=
  if sectionStart.isPrefixOf s then
    match s.drop sectionStart.length with
    | '\n' :: r2 =>
      let k := wsRunLen r2
      if sectionStart.isPrefixOf (r2.drop k) then
        some ((r2.drop k).drop sectionStart.length)
      else none
    | _ => none
  else none

def hasDivMatch : Text → Bool
  | [] => false
  | c :: t => (divMatchAt (c :: t)).isSome || hasDivMatch t

/-- One `re.sub(divider_pattern, '', cleaned)` pass: leftmost non-overlapping
matches replaced by nothing. -/
def divSubPass : Nat → Text → Text
  | 0, s => s
  | _ + 1, [] => []
  | fuel + 1, c :: t =>
    match divMatchAt (c :: t) with
    | some rest => divSubPass fuel rest
    | none => c :: divSubPass fuel t

/-- Python `while re.search(divider_pattern, cleaned): cleaned = re.sub(...)`;
each pass with a match strictly shortens the text. -/
def divLoop : Nat → Text → Text
  | 0, s => s
  | fuel + 1, s => if hasDivMatch s then divLoop fuel (divSubPass s.length s) else s

/-- Head of the lone-divider regex: `\n# ═(×51)\n`. -/
def loneHead : Text := '\n' :: sectionStart ++ ['\n']

/-- Match of the lone-divider regex
`\n# ═(×51)\n\s*\n+(?=# ═(×7))` at the head of `s`: the whitespace run after
the divider line must be wholly consumed, must end in at least one newline
(the `\n+`), and must be followed by the 7-glyph divider lookahead (not
consumed).  Returns the text after the consumed part. -/
def loneMatchAt (s : Text) : Option Text :=
  if loneHead.isPrefixOf s then
    let r := s.drop loneHead.length
    let k := wsRunLen r
    if 0 < k
        && (match r.drop (k - 1) with | '\n' :: _ => true | _ => false)
        && divider7.isPrefixOf (r.drop k) then
      some (r.drop k)
    else none
  else none

/-- One `re.sub(lone_divider, '\n\n', cleaned)` pass (the source applies it
once, not in a loop). -/
def loneSubPass : Nat → Text → Text
  | 0, s => s
  | _ + 1, [] => []
  | fuel + 1, c :: t =>
    match loneMatchAt (c :: t) with
    | some rest => '\n' :: '\n' :: loneSubPass fuel rest
    | none => c :: loneSubPass fuel t

/-- `ClaudeConfigManager._clean_duplicate_sections`. -/
def cleanDuplicateSections (content : Text) : Text :=
  let propers := findAll content properPat
  let orphans := orphanHits content propers
  let sections := sortAsc (propers ++ orphans)
  if sections.isEmpty then content
  else
    let cleaned := sections.reverse.foldl removeOne content
    let cleaned := collapse4 cleaned.length cleaned
    let cleaned := divLoop cleaned.length cleaned
    loneSubPass cleaned.length cleaned

/-- Inventory of installed components as scanned from disk: `(name, desc)`
pairs for commands, agents and scripts.  The scan itself is filesystem I/O
outside the merge engine; the engine consumes only these listings. -/
structure Inventory where
  cmds : List (Text × Text)
  agents : List (Text × Text)
  scripts : List (Text × Text)

/-- Python `f"{x:<20}"`. -/
def ljust (t : Text) (w : Nat) : Text :=
  t ++ List.replicate (w - t.length) ' '

def joinNl (lines : List Text) : Text :=
  match lines with
  | [] => []
  | l :: ls => l ++ (ls.map (fun x => '\n' :: x)).flatten

/-- `_format_commands`. -/
def formatCommands (cmds : List (Text × Text)) : Text :=
  if cmds.isEmpty then "# No Mentat commands installed".toList
  else joinNl (cmds.map (fun c => ljust c.1 20 ++ " # ".toList ++ c.2))

/-- `_format_agents`. -/
def formatAgents (ags : List (Text × Text)) : Text :=
  if ags.isEmpty then "# No Mentat agents installed".toList
  else joinNl (ags.map (fun a => ljust a.1 20 ++ " # ".toList ++ a.2))

/-- `_format_scripts`. -/
def formatScripts (scs : List (Text × Text)) : Text :=
  if scs.isEmpty then "# No Mentat scripts installed".toList
  else joinNl (scs.map (fun s => "# - ".toList ++ ljust s.1 25 ++ " # ".toList ++ s.2))

def natText (n : Nat) : Text := (Nat.repr n).toList

/-- `_generate_mentat_section`: the f-string template with the three listings
and the component counts interpolated. -/
def generateMentatSection (inv : Inventory) : Text :=
  '\n' :: sectionStart ++ '\n' :: sectionHeader ++ '\n' :: sectionStart
  ++ "\n\n# Mentat = Personal Claude Code customization framework\n# Built on SuperClaude v4.0.8 | Add features as needed\n\n# Mentat Commands (Extensible)\n".toList
  ++ formatCommands inv.cmds
  ++ "\n\n# Mentat Agents\n".toList
  ++ formatAgents inv.agents
  ++ "\n\n# Mentat Configuration\n# - Config: ~/.mentat/config.json (0600)\n# - Dotfiles: ~/dotfiles/ (symlinked)\n# - Lock: ~/.mentat/sync.lock (0700)\n# - Logs: ~/.mentat/sync.log\n\n# Mentat Security\n# - SSH auth with passphrase protection\n# - Input validation (emails, usernames, URLs)\n# - Atomic permissions (0600 keys, 0700 dirs)\n# - No credential storage\n# - Sanitized commits\n\n# Mentat Scripts\n".toList
  ++ formatScripts inv.scripts
  ++ "\n\n# Component Count: Commands: ".toList ++ natText inv.cmds.length
  ++ " | Agents: ".toList ++ natText inv.agents.length
  ++ " | Scripts: ".toList ++ natText inv.scripts.length
  ++ ['\n']

/-- Empty inventory: all three listings render their placeholder lines. -/
def emptyInv : Inventory := ⟨[], [], []⟩

/-- End markers of `update_claude_md`'s fallback search (replace path, no
`# Component Count:` line found). -/
def updateEndMarkers : List Text :=
  [ '\n' :: '\n' :: divider7,
    "\n\n# SuperClaude".toList,
    "\n\n# Core Framework".toList ]

/-- Python `if content and not content.endswith('\n'): content += '\n'`. -/
def padIfNeeded (content : Text) : Text :=
  if content.isEmpty then content
  else if content.getLast? = some '\n' then content
  else content ++ ['\n']

/-- Body of `update_claude_md` after the cleanup call, acting on the cleaned
text.  Replace path when the header survives cleanup, else append. -/
def upsertAfterClean (content : Text) (inv : Inventory) : Text :=
  let newSection := generateMentatSection inv
  if hasSub content sectionHeader then
    match strFind properPat content with
    | some startIdx =>
      let endIdx :=
        match pyFind content ccPat startIdx with
        | some cci =>
          match pyFind content ['\n'] cci with
          | some eol => eol + 1
          | none => content.length
        | none => scanEnd content (startIdx + properPat.length + 100) updateEndMarkers
      content.take startIdx ++ newSection ++ content.drop endIdx
    | none => content ++ '\n' :: newSection
  else padIfNeeded content ++ newSection

/-- `ClaudeConfigManager.update_claude_md` as a pure text transform: cleanup
followed by replace-or-append of a freshly generated section. -/
def updateClaudeMd (content : Text) (inv : Inventory) : Text :=
  upsertAfterClean (cleanDuplicateSections content) inv

/-- End markers of `remove_mentat_section` (no `# Component Count:` search on
this path). -/
def removeEndMarkers : List Text :=
  [ '\n' :: divider7, "\n\n# ".toList ]

/-- `ClaudeConfigManager.remove_mentat_section` as a pure text transform.
Returns the resulting document together with a flag recording whether the
file is rewritten (the source returns early, without writing, when the
header is absent or the start marker is not found). -/
def removeMentatSection (content : Text) : Text × Bool :=
  if hasSub content sectionHeader then
    match strFind properPat content with
    | some startIdx =>
      let endIdx := scanEnd content (startIdx + properPat.length) removeEndMarkers
      let c := content.take startIdx ++ content.drop endIdx
      (collapse3 c.length c, true)
    | none => (content, false)
  else (content, false)

/-- Host-document file state: existence, text content, and permission bits. -/
structure ClaudeFS where
  present : Bool
  content : Text
  mode : Nat

/-- `update_claude_md` at the file level: read (empty text when the file does
not exist), transform, write, then `chmod(0o644)` (420). -/
def updateClaudeMdFS (fs : ClaudeFS) (inv : Inventory) : ClaudeFS :=
  let c0 := if fs.present then fs.content else []
  { present := true, content := updateClaudeMd c0 inv, mode := 420 }

/-- `remove_mentat_section` at the file level: missing file and not-found
branches return without writing; the removal branch writes the new content.
No permission change occurs on this path in the source. -/
def removeMentatSectionFS (fs : ClaudeFS) : ClaudeFS :=
  if fs.present then
    if (removeMentatSection fs.content).2 then
      { fs with content := (removeMentatSection fs.content).1 }
    else fs
  else fs

/-- Number of positions of `s` at which pattern `p` occurs. -/
def countSub (p : Text) : Text → Nat
  | [] => 0
  | c :: t => (if p.isPrefixOf (c :: t) then 1 else 0) + countSub p t

/-- Occurrences of `p` in `a ++ b` that start inside `a`. -/
def countPos (p : Text) : Text → Text → Nat
  | [], _ => 0
  | c :: t, b => (if p.isPrefixOf (c :: t ++ b) then 1 else 0) + countPos p t b

/-- Upsert with the empty inventory (all three listings render placeholders). -/
def upsert0 (d : Text) : Text := updateClaudeMd d emptyInv

/-- Adversarial gadget for the single-block claim: deleting the inner proper
section's extent (which ends just past its `# Component Count:` line) splices
the outer divider line onto the trailing header copy, re-creating a proper
pattern that the cleanup scan, which recorded offsets against the original
text, never saw. -/
def gadgetPart : Text :=
  sectionStart ++ '\n' :: sectionStart ++ '\n' :: sectionHeader
    ++ "\n# Component Count: 0\n".toList ++ sectionHeader

/-- Document with exactly two proper-pattern occurrences whose cleanup leaves
two reassembled proper patterns behind. -/
def dAdv : Text :=
  gadgetPart ++ List.replicate 100 'x' ++ '\n' :: '\n' :: gadgetPart ++ ['Y']

/-- Variant of the gadget with 370 characters of padding inside the deleted
extent (between the inner header and its `# Component Count:` line), pushing
everything after it beyond the 500-character orphan window. -/
def gadgetPartPadded : Text :=
  sectionStart ++ '\n' :: sectionStart ++ '\n' :: sectionHeader
    ++ '\n' :: List.replicate 370 'p' ++ "\n# Component Count: 0\n".toList ++ sectionHeader

/-- The gadget document with a decapitated orphan fragment appended more than
500 characters past both proper-block offsets (54 and 344; the fragment sits
at 850). -/
def dAdv4 : Text :=
  gadgetPart ++ List.replicate 100 'x' ++ '\n' :: '\n' :: gadgetPartPadded
    ++ ['Y'] ++ '\n' :: orphanMentatEq ++ "\nstale".toList

/-- A compact well-formed generated block: start marker, header, end marker,
body, terminated by a `# Component Count:` line. -/
def properBlock : Text :=
  sectionStart ++ '\n' :: sectionHeader ++ '\n' :: sectionStart
    ++ "\n\nsome block body\n\n# Component Count: Commands: 0 | Agents: 0 | Scripts: 0\n".toList

/-- Representative corrupted document of the healing scenario: two proper
blocks (offsets 0 and 212) followed by plain filler and one decapitated
orphan fragment at offset 724, more than 500 characters past both block
offsets. -/
def dHeal : Text :=
  properBlock ++ properBlock ++ List.replicate 300 'f'
    ++ '\n' :: orphanMentatEq ++ "\nstale content".toList

-- ── `MentatConfig._validate_github_username` (`setup/utils/mentat_config.py`) ──

def aposChar : Char := Char.ofNat 39

def backquoteChar : Char := Char.ofNat 96

/-- The `dangerous_chars` list of `_validate_github_username`, in source
order; each entry is checked with Python `in`, i.e. as a substring (the last
entry is the two-character string `..`). -/
def dangerousTokens : List Text :=
  [ [';'], ['|'], ['&'], ['$'], [backquoteChar], ['\\'], ['"'], [aposChar],
    ['\n'], ['\r'], ['<'], ['>'], ['/'], ['.', '.'] ]

/-- Character class `[a-zA-Z0-9]`. -/
def isAlnumAscii (c : Char) : Bool :=
  ('a' ≤ c && c ≤ 'z') || ('A' ≤ c && c ≤ 'Z') || ('0' ≤ c && c ≤ '9')

/-- Character class `[a-zA-Z0-9-]`. -/
def isUserClass (c : Char) : Bool :=
  isAlnumAscii c || c = '-'

/-- Match of `^[a-zA-Z0-9]([a-zA-Z0-9-]{0,37}[a-zA-Z0-9])?$` against the
whole string: one alphanumeric character, optionally followed by up to 37
class characters and a final alphanumeric one. -/
def coreUserMatch : Text → Bool
  | [] => false
  | c :: rest =>
    isAlnumAscii c &&
      (rest.isEmpty ||
        (decide (rest.length ≤ 38) && rest.dropLast.all isUserClass &&
          (match rest.getLast? with
           | some d => isAlnumAscii d
           | none => false)))

/-- Python `re.match` with a `$`-anchored pattern also accepts a match that
ends just before one trailing newline; `_validate_github_username` never
reaches that case because `\n` is rejected as a dangerous character first,
but the regex itself has it. -/
def pyRegexUserMatch (s : Text) : Bool :=
  coreUserMatch s ||
    (match s.getLast? with
     | some c => c = '\n' && coreUserMatch s.dropLast
     | none => false)

/-- `_validate_github_username`: length guard, dangerous-substring guard,
then the anchored regex. -/
def validateGithubUsername (s : Text) : Bool :=
  if s.isEmpty || decide (39 < s.length) then false
  else if dangerousTokens.any (fun p => hasSub s p) then false
  else pyRegexUserMatch s

/-- Modelled from the claim's wording, to be compared with the code's
validator: 1-39 characters, alphanumeric with interior hyphens only, no
leading or trailing hyphen, no shell metacharacter and no literal `..`. -/
def specUsernameRules (s : Text) : Bool :=
  decide (1 ≤ s.length) && decide (s.length ≤ 39) && s.all isUserClass &&
    (match s.head? with | some c => isAlnumAscii c | none => false) &&
    (match s.getLast? with | some c => isAlnumAscii c | none => false) &&
    !(dangerousTokens.any (fun p => hasSub s p))

/-- The literal rejected account name `robert'; rm -rf` of the spec's test
case (built around an explicit apostrophe character). -/
def evilAccount : Text :=
  "robert".toList ++ aposChar :: "; rm -rf".toList

-- ── `SSHAuthHelper._verify_github_auth` (`setup/utils/ssh_auth.py`) ──

/-- Captured outcome of a probe process that completed within its timeout:
exit status plus captured output streams (`subprocess.run(...,
capture_output=True)`). -/
structure ProbeResult where
  returncode : Int
  stdout : Text
  stderr : Text

/-- Success indicator searched for in the probe's stderr. -/
def successIndicator : Text := "successfully authenticated".toList

/-- `_verify_github_auth` on a completed probe: true iff the indicator occurs
in stderr; the exit status is never examined (GitHub returns 1 on successful
auth-only probes). -/
def verifyGithubAuth (r : ProbeResult) : Bool :=
  hasSub r.stderr successIndicator

-- ── `SSHAuthHelper._generate_new_key` (`setup/utils/ssh_auth.py`) ──

/-- Existence of the key pair at the canonical path. -/
structure SshFS where
  priv : Bool
  pub : Bool

/-- `_setup_github_key`: reads the public key file (returning `False` on a
read failure) and then walks the user through registration; `userCompleted`
abstracts the interactive outcome. -/
def setupGithubKey (fs : SshFS) (userCompleted : Bool) : Bool :=
  if fs.pub then userCompleted else false

/-- Key-material core of `_generate_new_key`, from `key_file.touch` onward,
parameterized by the `ssh-keygen` exit status.  On a nonzero status both
files are unlinked (`missing_ok=True`) before control leaves the `try` body;
the `finally` block's `return self._setup_github_key(public_key_file)`
supersedes the `try` body's `return False` (Python `finally` semantics) and
returns `False` itself because the public key file has been deleted.  On a
zero status the generator writes the pair and the same `finally` call decides
the result. -/
def generateNewKeyCore (fs0 : SshFS) (keygenExit : Int) (userCompleted : Bool) :
    Bool × SshFS :=
  let fs1 : SshFS := { fs0 with priv := true }
  if keygenExit ≠ 0 then
    let fs2 : SshFS := { fs1 with priv := false, pub := false }
    (setupGithubKey fs2 userCompleted, fs2)
  else
    let fs2 : SshFS := { fs1 with pub := true }
    (setupGithubKey fs2 userCompleted, fs2)

/-- Small document with one removable section, used to witness the remove
path: header present, start marker found, removal leaves a three-newline run
that the collapse loop then shortens. -/
def dRemoveW : Text :=
  "Intro\n".toList ++ properPat ++ "\nbody\n\n# Next".toList

/-- Mentat-free document with a run of four newlines, used to witness that
the cleanup pass leaves such a document exactly unchanged. -/
def dPlainW : Text := "Hello\n\n\n\nWorld\n".toList

-- ── Helper lemmas ──

theorem replaceRun3_cons (c : Char) (t : Text)
    (h : ∀ t1 : Text, c = '\n' → t = '\n' :: '\n' :: t1 → False) :
    replaceRun3 (c :: t) = c :: replaceRun3 t := by
  rw [replaceRun3.eq_def]
  split
  · rename_i t1 heq
    injection heq with h1 h2
    exact absurd h2 (fun hh => h t1 h1 hh)
  · rename_i c2 t2 _ heq
    injection heq with h1 h2
    rw [h1, h2]
  · rename_i heq
    exact absurd heq (by simp)

theorem replaceRun3_le (s : Text) : (replaceRun3 s).length ≤ s.length := by
  induction s using replaceRun3.induct with
  | case1 t ih => simp only [replaceRun3, List.length_cons]; omega
  | case2 c t hno ih => rw [replaceRun3_cons c t hno]; simp only [List.length_cons]; omega
  | case3 => simp [replaceRun3]

theorem replaceRun3_lt (s : Text) (h : hasSub s nl3 = true) :
    (replaceRun3 s).length < s.length := by
  induction s using replaceRun3.induct with
  | case1 t ih =>
    have h2 := replaceRun3_le t
    simp only [replaceRun3, List.length_cons]
    omega
  | case2 c t hno ih =>
    rw [replaceRun3_cons c t hno]
    have ht : hasSub t nl3 = true := by
      by_cases hp : nl3.isPrefixOf (c :: t)
      · exfalso
        obtain ⟨r, hr⟩ := List.isPrefixOf_iff_prefix.mp hp
        simp only [nl3, List.cons_append, List.nil_append] at hr
        injection hr with h1 h2
        exact hno r h1.symm h2.symm
      · have heq : strFind nl3 (c :: t) = (strFind nl3 t).map (· + 1) := by
          simp [strFind, hp]
        simp only [hasSub, heq] at h
        cases hft : strFind nl3 t with
        | none => rw [hft] at h; simp at h
        | some j => simp [hasSub, hft]
    have := ih ht
    simp only [List.length_cons]
    omega
  | case3 => exact absurd h (by decide)

theorem collapse3_no3 : ∀ (fuel : Nat) (s : Text), s.length ≤ fuel →
    hasSub (collapse3 fuel s) nl3 = false := by
  intro fuel
  induction fuel with
  | zero =>
    intro s hs
    have hnil : s = [] := List.eq_nil_of_length_eq_zero (Nat.le_zero.mp hs)
    subst hnil
    decide
  | succ n ih =>
    intro s hs
    by_cases h : hasSub s nl3
    · have hlt := replaceRun3_lt s h
      simp only [collapse3, h, if_true]
      exact ih _ (by omega)
    · simp only [collapse3, h, if_false]
      exact Bool.not_eq_true _ ▸ (by simpa using h)

theorem strFind_none_of_no_occ (p s : Text) (h : ¬ p <:+: s) : strFind p s = none := by
  induction s with
  | nil =>
    have hp : p.isPrefixOf ([] : Text) = false := by
      rw [Bool.eq_false_iff]
      intro hb
      exact h (List.isPrefixOf_iff_prefix.mp hb).isInfix
    simp [strFind, hp]
  | cons c t ih =>
    have hp : p.isPrefixOf (c :: t) = false := by
      rw [Bool.eq_false_iff]
      intro hb
      exact h (List.isPrefixOf_iff_prefix.mp hb).isInfix
    have ht : strFind p t = none := ih (fun hi => h (List.infix_cons_iff.mpr (Or.inr hi)))
    simp [strFind, hp, ht]

theorem strFind_isSome_of_occ (p s : Text) (h : p <:+: s) :
    (strFind p s).isSome = true := by
  induction s with
  | nil =>
    have hp : p = [] := by simpa using h
    subst hp
    decide
  | cons c t ih =>
    by_cases hp : p.isPrefixOf (c :: t)
    · simp [strFind, hp]
    · rcases List.infix_cons_iff.mp h with hpre | hinf
      · exact absurd (List.isPrefixOf_iff_prefix.mpr hpre) hp
      · have := ih hinf
        simp only [strFind, hp, if_false]
        cases hft : strFind p t with
        | none => rw [hft] at this; simp at this
        | some j => simp

theorem hasSub_iff_occ (s p : Text) : hasSub s p = true ↔ p <:+: s := by
  constructor
  · intro h
    by_contra hno
    rw [hasSub, strFind_none_of_no_occ p s hno] at h
    simp at h
  · intro h
    exact strFind_isSome_of_occ p s h

theorem hasSub_false_of_no_occ (s p : Text) (h : ¬ p <:+: s) : hasSub s p = false := by
  simp [hasSub, strFind_none_of_no_occ p s h]

theorem findAllFrom_nil_of_no_occ (s p : Text) (h : ¬ p <:+: s) :
    ∀ (pos fuel : Nat), findAllFrom s p pos fuel = [] := by
  intro pos fuel
  cases fuel with
  | zero => rfl
  | succ n =>
    have hd : ¬ p <:+: s.drop pos := fun hi => h (hi.trans (List.drop_suffix pos s).isInfix)
    simp [findAllFrom, pyFind, strFind_none_of_no_occ p _ hd]

theorem cleanup_id_of_no_marks (d : Text)
    (hp : ¬ properPat <:+: d)
    (h1 : ¬ orphanMentatEq <:+: d)
    (h2 : ¬ orphanCmdDotfiles <:+: d)
    (h3 : ¬ orphanCmdExt <:+: d) :
    cleanDuplicateSections d = d := by
  have hp' : findAll d properPat = [] := findAllFrom_nil_of_no_occ d _ hp 0 _
  have ho1 : findAll d ('\n' :: orphanMentatEq) = [] :=
    findAllFrom_nil_of_no_occ d _
      (fun hi => h1 ((List.suffix_cons '\n' orphanMentatEq).isInfix.trans hi)) 0 _
  have ho2 : findAll d ('\n' :: orphanCmdDotfiles) = [] :=
    findAllFrom_nil_of_no_occ d _
      (fun hi => h2 ((List.suffix_cons '\n' orphanCmdDotfiles).isInfix.trans hi)) 0 _
  have ho3 : findAll d ('\n' :: orphanCmdExt) = [] :=
    findAllFrom_nil_of_no_occ d _
      (fun hi => h3 ((List.suffix_cons '\n' orphanCmdExt).isInfix.trans hi)) 0 _
  simp [cleanDuplicateSections, orphanHits, orphanPats, hp', ho1, ho2, ho3, sortAsc]

theorem countSub_append (p a b : Text) :
    countSub p (a ++ b) = countPos p a b + countSub p b := by
  induction a with
  | nil => simp [countPos]
  | cons c t ih =>
    simp only [List.cons_append, countSub, countPos, List.append_eq, ih]
    omega

theorem countPos_eq_zero (p b : Text) :
    ∀ (a : Text), (∀ s : Text, s ≠ [] → s <:+ a → ¬ p <+: (s ++ b)) →
    countPos p a b = 0 := by
  intro a
  induction a with
  | nil => intro _; rfl
  | cons c t ih =>
    intro h
    have h1 : p.isPrefixOf (c :: t ++ b) = false := by
      rw [Bool.eq_false_iff]
      intro hb
      refine h (c :: t) (by simp) (List.suffix_refl _) ?_
      simpa using List.isPrefixOf_iff_prefix.mp hb
    have h2 : countPos p t b = 0 :=
      ih (fun s hs hsuf => h s hs (hsuf.trans (List.suffix_cons c t)))
    unfold countPos
    rw [h1, h2]
    simp

theorem prefix_of_append_left {p s b : Text} (h : p <+: s ++ b)
    (hl : p.length ≤ s.length) : p <+: s := by
  rw [List.prefix_iff_eq_take] at h ⊢
  rwa [List.take_append_of_le_length hl] at h

theorem prefix_drop_of_append {p s b : Text} (h : p <+: s ++ b)
    (hl : s.length < p.length) : p.drop s.length <+: b := by
  rw [List.prefix_iff_eq_take] at h
  have hsplit : p.length = s.length + (p.length - s.length) := by omega
  rw [hsplit, List.take_append] at h
  rw [h, List.drop_left]
  exact List.take_prefix _ _

theorem no_occ_of_concat_single {p d : Text} {c : Char} (hne : p ≠ [])
    (hlast : p.getLast? ≠ some c) (h : p <:+: d ++ [c]) : p <:+: d := by
  obtain ⟨s, t, hst⟩ := h
  rcases List.eq_nil_or_concat t with rfl | ⟨t', x, rfl⟩
  · exfalso
    apply hlast
    have h2 : s ++ p = d ++ [c] := by simpa using hst
    have h3 : (s ++ p).getLast? = some c := by rw [h2]; simp
    rw [List.getLast?_append, List.getLast?_eq_getLast p hne] at h3
    have h4 : p.getLast hne = c := by
      simpa [Option.or] using h3
    rw [List.getLast?_eq_getLast p hne, h4]
  · have hst2 : (s ++ p ++ t') ++ [x] = d ++ [c] := by
      simpa [List.concat_eq_append, List.append_assoc] using hst
    have h5 := List.append_inj' hst2 rfl
    exact ⟨s, t', h5.1⟩

theorem header_suffix_properPat : sectionHeader <:+ properPat :=
  ⟨sectionStart ++ ['\n'], by simp [properPat]⟩

theorem header_infix_of_pad {d : Text} (h : sectionHeader <:+: padIfNeeded d) :
    sectionHeader <:+: d := by
  unfold padIfNeeded at h
  split at h
  · exact h
  · split at h
    · exact h
    · exact no_occ_of_concat_single (by decide) (by decide) h

-- ── Claim theorems ──

/-- C1 (corrected): the upsert text transform is not idempotent.  At the
empty document (empty inventory) a second upsert prepends one extra newline:
the deletion extent of the cleanup pass starts at the proper-pattern offset
and so leaves the appended section's leading newline behind.  Iteration
stabilizes once three leading newlines have accumulated: the fourth iterate
is a fixed point. -/
theorem mentat_C1 :
    upsert0 (upsert0 []) = '\n' :: upsert0 [] ∧
    upsert0 (upsert0 (upsert0 (upsert0 (upsert0 [])))) =
      upsert0 (upsert0 (upsert0 (upsert0 []))) :=
  ⟨by decide, by decide⟩

/-- C1 counterexample: `upsert(upsert(d, I), I) = upsert(d, I)` fails at
`d = ""` with the empty inventory. -/
theorem mentat_C1_cex :
    ¬ (updateClaudeMd (updateClaudeMd [] emptyInv) emptyInv = updateClaudeMd [] emptyInv) := by
  decide

/-- C2 (amended): for every input document that contains no occurrence of the
section header and none of the three orphan sentinel lines, upsert (with the
empty inventory) produces a document with exactly one occurrence of the
start-marker divider immediately followed by the header line. -/
theorem mentat_C2 (d : Text)
    (hH : ¬ sectionHeader <:+: d)
    (h1 : ¬ orphanMentatEq <:+: d)
    (h2 : ¬ orphanCmdDotfiles <:+: d)
    (h3 : ¬ orphanCmdExt <:+: d) :
    countSub properPat (updateClaudeMd d emptyInv) = 1 := by
  have hp : ¬ properPat <:+: d := fun hi => hH (header_suffix_properPat.isInfix.trans hi)
  rw [updateClaudeMd, cleanup_id_of_no_marks d hp h1 h2 h3]
  have hhs : hasSub d sectionHeader = false := hasSub_false_of_no_occ d _ hH
  rw [upsertAfterClean]
  rw [hhs]
  simp only [Bool.false_eq_true, if_false]
  rw [countSub_append]
  have hc1 : countSub properPat (generateMentatSection emptyInv) = 1 := by decide
  have hzero : countPos properPat (padIfNeeded d) (generateMentatSection emptyInv) = 0 := by
    apply countPos_eq_zero
    intro s hne hsuf hpre
    by_cases hl : properPat.length ≤ s.length
    · have hps : properPat <+: s := prefix_of_append_left hpre hl
      exact hH (header_infix_of_pad
        (header_suffix_properPat.isInfix.trans (hps.isInfix.trans hsuf.isInfix)))
    · push_neg at hl
      have hdrop : properPat.drop s.length <+: generateMentatSection emptyInv :=
        prefix_drop_of_append hpre hl
      have hlen83 : properPat.length = 83 := by decide
      have hbound : ∀ k, k < 83 → 0 < k →
          ¬ (properPat.drop k <+: generateMentatSection emptyInv) := by decide
      exact hbound s.length (by omega) (List.length_pos.mpr hne) hdrop
  rw [hzero, hc1]

/-- C2 witness: the amended statement applied to a concrete Mentat-free
document. -/
theorem mentat_C2_witness :
    (¬ sectionHeader <:+: "My dotfiles notes\n".toList) ∧
    countSub properPat (updateClaudeMd "My dotfiles notes\n".toList emptyInv) = 1 :=
  ⟨by decide, mentat_C2 _ (by decide) (by decide) (by decide) (by decide)⟩

/-- C2 counterexample: a document with two proper-pattern occurrences whose
deletion extents splice new start-marker/header juxtapositions together; the
upsert output contains two occurrences of the start marker followed by the
header, not one. -/
theorem mentat_C2_cex :
    countSub properPat dAdv = 2 ∧
    countSub properPat (updateClaudeMd dAdv emptyInv) = 2 :=
  ⟨by decide, by decide⟩

/-- C3 (code bug): `remove_mentat_section` does not run the cleanup pass; its
end-marker search (`"\n# ═══════"`) matches the newline directly before the
block's own closing divider, so only the start-marker and header lines are
deleted.  After `remove(upsert(""))` the body remains: both the
`# Mentat = Personal ...` and `# Mentat Commands (Extensible)` sentinels
survive, contradicting the claim's zero-sentinel requirement (the write does
happen, and the proper pattern itself is indeed gone). -/
theorem mentat_C3 :
    (removeMentatSection (updateClaudeMd [] emptyInv)).2 = true ∧
    hasSub (removeMentatSection (updateClaudeMd [] emptyInv)).1 orphanMentatEq = true ∧
    hasSub (removeMentatSection (updateClaudeMd [] emptyInv)).1 orphanCmdExt = true ∧
    countSub properPat (removeMentatSection (updateClaudeMd [] emptyInv)).1 = 0 :=
  ⟨by decide, by decide, by decide, by decide⟩

/-- C4 (amended): upsert heals the representative corrupted document: two
proper blocks (offsets 0 and 212, each with header and terminator line) plus
one decapitated orphan fragment at offset 724, more than 500 characters past
both block offsets.  The result has exactly one proper block, and every
orphan sentinel occurrence lies inside that block (one `# Mentat = ...`, one
`# Mentat Commands (Extensible)`, no `# Mentat Commands (Dotfiles`). -/
theorem mentat_C4 :
    countSub properPat dHeal = 2 ∧
    strFind ('\n' :: orphanMentatEq) dHeal = some 724 ∧
    (0 + 500 < 724 ∧ 212 + 500 < 724) ∧
    countSub properPat (updateClaudeMd dHeal emptyInv) = 1 ∧
    countSub orphanMentatEq (updateClaudeMd dHeal emptyInv) = 1 ∧
    countSub orphanCmdExt (updateClaudeMd dHeal emptyInv) = 1 ∧
    countSub orphanCmdDotfiles (updateClaudeMd dHeal emptyInv) = 0 :=
  ⟨by decide, by decide, by decide, by decide, by decide, by decide, by decide⟩

/-- C4 counterexample: a document in the claim's class (exactly two
proper-pattern occurrences, plus one decapitated orphan fragment more than
500 characters after both proper offsets) on which upsert leaves two proper
blocks. -/
theorem mentat_C4_cex :
    findAll dAdv4 properPat = [54, 344] ∧
    strFind ('\n' :: orphanMentatEq) dAdv4 = some 850 ∧
    (54 + 500 < 850 ∧ 344 + 500 < 850) ∧
    countSub properPat (updateClaudeMd dAdv4 emptyInv) = 2 :=
  ⟨by decide, by decide, by decide, by decide⟩

/-- C5 (amended): whenever `remove_mentat_section` actually rewrites the
document, the written text contains no run of three consecutive newlines
(hence no run of 3+ consecutive blank lines).  The upsert path gives no such
bound: its blank-line collapse runs only when the cleanup pass removed a
section. -/
theorem mentat_C5 (d : Text) (h : (removeMentatSection d).2 = true) :
    hasSub (removeMentatSection d).1 nl3 = false := by
  unfold removeMentatSection at h ⊢
  by_cases hh : hasSub d sectionHeader
  · simp only [hh, if_true] at h ⊢
    cases hsf : strFind properPat d with
    | none => rw [hsf] at h; simp at h
    | some i => exact collapse3_no3 _ _ (le_refl _)
  · rw [Bool.not_eq_true] at hh
    rw [hh] at h
    simp at h

/-- C5 witness: the remove bound at a concrete document with one section. -/
theorem mentat_C5_witness :
    (removeMentatSection dRemoveW).2 = true ∧
    hasSub (removeMentatSection dRemoveW).1 nl3 = false :=
  ⟨by decide, mentat_C5 dRemoveW (by decide)⟩

/-- C5 counterexample: upsert output can contain a run of four newlines (3+
consecutive blank lines): a Mentat-free document is left untouched by the
cleanup pass, and the section is appended after it. -/
theorem mentat_C5_cex :
    hasSub (updateClaudeMd ['\n', '\n', '\n', '\n'] emptyInv) nl4 = true := by
  decide

/-- C6 (amended): the upsert path sets the document mode to 0o644 (420) after
its write, but the remove path writes without touching the permission bits. -/
theorem mentat_C6 :
    (∀ (fs : ClaudeFS) (inv : Inventory), (updateClaudeMdFS fs inv).mode = 420) ∧
    (∀ fs : ClaudeFS, (removeMentatSectionFS fs).mode = fs.mode) := by
  constructor
  · intro fs inv
    rfl
  · intro fs
    unfold removeMentatSectionFS
    split
    · split <;> rfl
    · rfl

/-- C6 counterexample: a removal write on a file with mode 0o600 (384) leaves
the mode at 384, not 0o644 (420), even though the content was rewritten. -/
theorem mentat_C6_cex :
    (removeMentatSection (updateClaudeMd [] emptyInv)).2 = true ∧
    (removeMentatSectionFS ⟨true, updateClaudeMd [] emptyInv, 384⟩).mode = 384 ∧
    ¬ ((removeMentatSectionFS ⟨true, updateClaudeMd [] emptyInv, 384⟩).content
        = updateClaudeMd [] emptyInv) :=
  ⟨by decide, by decide, by decide⟩

/-- C8 (confirmed): for a probe that completed within the timeout,
verification reports true iff the diagnostic stream contains the substring
`successfully authenticated`, independently of the exit status; in
particular a nonzero-status probe with the substring present verifies. -/
theorem mentat_C8 :
    (∀ r : ProbeResult, verifyGithubAuth r = true ↔ hasSub r.stderr successIndicator = true) ∧
    (∀ (r : ProbeResult) (rc : Int),
      verifyGithubAuth { r with returncode := rc } = verifyGithubAuth r) ∧
    verifyGithubAuth
      ⟨1, [],
        "Hi user! You have successfully authenticated, but GitHub does not provide shell access.".toList⟩
      = true :=
  ⟨fun _ => Iff.rfl, fun _ _ => rfl, by decide⟩

/-- C9 (confirmed): when the key generator exits with nonzero status, both
the private and the public key file are deleted before control returns, and
the call reports failure. -/
theorem mentat_C9 (fs : SshFS) (rc : Int) (u : Bool) (h : rc ≠ 0) :
    (generateNewKeyCore fs rc u).2.priv = false ∧
    (generateNewKeyCore fs rc u).2.pub = false ∧
    (generateNewKeyCore fs rc u).1 = false := by
  unfold generateNewKeyCore
  rw [if_pos h]
  exact ⟨rfl, rfl, rfl⟩

/-- C9 witness: generator exit status 1 on a filesystem that already had both
files. -/
theorem mentat_C9_witness :
    ((1 : Int) ≠ 0) ∧
    ((generateNewKeyCore ⟨true, true⟩ 1 true).2.priv = false ∧
     (generateNewKeyCore ⟨true, true⟩ 1 true).2.pub = false ∧
     (generateNewKeyCore ⟨true, true⟩ 1 true).1 = false) :=
  ⟨by decide, mentat_C9 ⟨true, true⟩ 1 true (by decide)⟩

/-- C10 (confirmed): a document with no proper-pattern occurrence and no
orphan sentinel occurrence is returned by the cleanup pass exactly unchanged;
in particular blank-line runs and divider pairs elsewhere are collapsed only
when at least one block or fragment was found. -/
theorem mentat_C10 (d : Text)
    (hp : ¬ properPat <:+: d)
    (h1 : ¬ orphanMentatEq <:+: d)
    (h2 : ¬ orphanCmdDotfiles <:+: d)
    (h3 : ¬ orphanCmdExt <:+: d) :
    cleanDuplicateSections d = d :=
  cleanup_id_of_no_marks d hp h1 h2 h3

/-- C10 witness: a Mentat-free document containing a four-newline run is left
exactly unchanged (no blank-line collapse happens). -/
theorem mentat_C10_witness :
    (¬ properPat <:+: dPlainW) ∧ (¬ orphanMentatEq <:+: dPlainW) ∧
    (¬ orphanCmdDotfiles <:+: dPlainW) ∧ (¬ orphanCmdExt <:+: dPlainW) ∧
    cleanDuplicateSections dPlainW = dPlainW :=
  ⟨by decide, by decide, by decide, by decide,
    mentat_C10 dPlainW (by decide) (by decide) (by decide) (by decide)⟩

/-- Bridge between the source validator and the claim's positional grammar:
the two agree on every string. -/
theorem validate_eq_specRules (s : Text) :
    validateGithubUsername s = specUsernameRules s := by
  cases s with
  | nil => rfl
  | cons c rest =>
    by_cases hlen : 39 < (c :: rest).length
    · simp only [List.length_cons] at hlen
      have h1 : validateGithubUsername (c :: rest) = false := by
        unfold validateGithubUsername
        have hc : ((c :: rest).isEmpty || decide (39 < (c :: rest).length)) = true := by
          simp
          omega
        rw [if_pos hc]
      have h2 : specUsernameRules (c :: rest) = false := by
        unfold specUsernameRules
        have hc : decide ((c :: rest).length ≤ 39) = false := by
          simp only [decide_eq_false_iff_not, List.length_cons]
          omega
        rw [hc]
        simp
      rw [h1, h2]
    · simp only [List.length_cons] at hlen
      have hc1 : ((c :: rest).isEmpty || decide (39 < (c :: rest).length)) = false := by
        simp only [List.isEmpty_cons, Bool.false_or, decide_eq_false_iff_not, List.length_cons]
        omega
      by_cases hdang : (dangerousTokens.any (fun p => hasSub (c :: rest) p)) = true
      · have h1 : validateGithubUsername (c :: rest) = false := by
          unfold validateGithubUsername
          rw [hc1]
          simp only [Bool.false_eq_true, if_false]
          rw [if_pos hdang]
        have h2 : specUsernameRules (c :: rest) = false := by
          unfold specUsernameRules
          rw [hdang]
          simp
        rw [h1, h2]
      · have hdf : (dangerousTokens.any (fun p => hasSub (c :: rest) p)) = false := by
          simpa using hdang
        have hv : validateGithubUsername (c :: rest) = pyRegexUserMatch (c :: rest) := by
          unfold validateGithubUsername
          rw [hc1]
          simp only [Bool.false_eq_true, if_false]
          rw [hdf]
          simp only [Bool.false_eq_true, if_false]
        have hnl : '\n' ∉ (c :: rest) := by
          intro hmem
          obtain ⟨l, r, hlr⟩ := List.append_of_mem hmem
          have hocc : ['\n'] <:+: (c :: rest) := ⟨l, r, by rw [hlr]; simp⟩
          have hsb : hasSub (c :: rest) ['\n'] = true := (hasSub_iff_occ _ _).mpr hocc
          rw [List.any_eq_false] at hdf
          exact absurd hsb (by simpa using hdf ['\n'] (by simp [dangerousTokens]))
        have hlast_nl : (c :: rest).getLast? ≠ some '\n' := by
          intro hl
          exact hnl (List.mem_of_getLast?_eq_some hl)
        have hpy : pyRegexUserMatch (c :: rest) = coreUserMatch (c :: rest) := by
          unfold pyRegexUserMatch
          cases hgl : (c :: rest).getLast? with
          | none => simp
          | some d =>
            have hd : ¬ (d = '\n') := fun hh => hlast_nl (by rw [hgl, hh])
            simp [hd]
        rw [hv, hpy]
        have hspec : specUsernameRules (c :: rest)
            = ((c :: rest).all isUserClass && isAlnumAscii c &&
                (match (c :: rest).getLast? with
                 | some x => isAlnumAscii x
                 | none => false)) := by
          unfold specUsernameRules
          have ha : decide (1 ≤ (c :: rest).length) = true := by simp
          have hb : decide ((c :: rest).length ≤ 39) = true := by
            simp only [decide_eq_true_eq, List.length_cons]
            omega
          rw [ha, hb, hdf]
          simp [Bool.and_assoc]
        rw [hspec]
        rcases List.eq_nil_or_concat rest with rfl | ⟨mid, d, rfl⟩
        · simp only [coreUserMatch]
          cases hc : isAlnumAscii c <;> simp [isUserClass, hc]
        · rw [List.concat_eq_append] at *
          have hlen38 : decide ((mid ++ [d]).length ≤ 38) = true := by
            simp only [decide_eq_true_eq]
            simp only [List.length_cons, List.length_append] at hlen ⊢
            omega
          simp only [coreUserMatch]
          rw [hlen38]
          have hrw : c :: (mid ++ [d]) = (c :: mid) ++ [d] := by simp
          rw [hrw]
          have hie : (mid ++ [d]).isEmpty = false := by simp
          rw [hie]
          simp only [List.getLast?_concat, List.dropLast_concat, Bool.true_and,
            Bool.false_or, List.all_append, List.all_cons, List.all_nil, Bool.and_true]
          cases hca : isAlnumAscii c <;> cases hda : isAlnumAscii d <;>
            cases hm : mid.all isUserClass <;> simp [isUserClass, hca, hda, hm]

/-- C7 (confirmed): the username validator accepts exactly the strings of
1-39 characters that are alphanumeric with interior hyphens, do not start or
end with a hyphen, and contain no shell metacharacter and no literal `..`;
`abc123` is accepted while the metacharacter and leading-hyphen examples are
rejected. -/
theorem mentat_C7 :
    (∀ s : Text, validateGithubUsername s = specUsernameRules s) ∧
    validateGithubUsername "abc123".toList = true ∧
    validateGithubUsername evilAccount = false ∧
    validateGithubUsername "-abc".toList = false :=
  ⟨validate_eq_specRules, by decide, by decide, by decide⟩
